import Mathlib

/-!
# Verification of the Express in-memory item CRUD service

Shallow embedding of the item service defined in `express_basics.js`
(`buildApp`): the in-memory `store`, the `validateItem` function (Joi
schema path and manual fallback path), the `authStub` middleware, and the
`GET/POST /items`, `PUT /items/:id`, `DELETE /items/:id` and `GET /me`
handlers.  Request bodies produced by `express.json()` are modelled as
JSON objects carrying the two fields the validator inspects plus a flag
recording whether any other key is present.  The clock (`Date.now()`) is
an explicit `Nat` parameter (milliseconds); `String(n)` on a natural
number is `Nat.repr`, which is Lean's decimal rendering, exactly the
decimal rendering JavaScript performs on integral numbers in this range.
-/

namespace ItemService

/-- A JSON scalar value as it can appear in a parsed request body field. -/
inductive JsVal where
  | vstr (s : String)
  | vbool (b : Bool)
  | vnum (n : Int)
  | vnull
  deriving DecidableEq

/-- A parsed JSON request body (an object).  `name` and `done` are the
fields the validator reads; `extra` records whether the object carries
any key other than `name` and `done` (the Joi schema rejects unknown
keys). -/
structure Body where
  name : Option JsVal
  done : Option JsVal
  extra : Bool
  deriving DecidableEq

/-- The normalized `name`/`done` pair produced by a successful validation. -/
structure NormItem where
  name : String
  done : Bool
  deriving DecidableEq

/-- JavaScript `String.prototype.trim` (strip leading and trailing
whitespace), written over the character list so that it is
kernel-computable. -/
def strTrim (s : String) : String :=
  String.mk (((s.data.dropWhile Char.isWhitespace).reverse.dropWhile
      Char.isWhitespace).reverse)

/-- ASCII lower-casing of a string (used for Joi's case-insensitive
boolean coercion of the strings "true"/"false"). -/
def strLower (s : String) : String :=
  String.mk (s.data.map Char.toLower)

/-- JavaScript truthiness `Boolean(v)` of an optional field value
(`undefined`, `null`, `''` and `0` are falsy). -/
def jsTruthy : Option JsVal → Bool
  | none => false
  | some (JsVal.vstr s) => s != ""
  | some (JsVal.vbool b) => b
  | some (JsVal.vnum n) => n != 0
  | some JsVal.vnull => false

/-- The Joi branch of `validateItem`:
`Joi.object(\x7b name: Joi.string().min(1).max(120).required(),
done: Joi.boolean().default(false) \x7d).validate(body)`.
Per Joi's semantics: unknown keys are rejected, `name` must be a
non-empty string of length at most 120 (no trimming is performed, the
schema has no `.trim()`), `done` accepts a boolean or the strings
"true"/"false" (case-insensitively, by default conversion) and defaults
to `false`.  On error the handler turns the message into a 400.
The schema is embedded rule by rule below, `joiValidateItem` being the
whole `validate` call.

The `done: Joi.boolean().default(false)` rule, applied once the name
passed (`nm` is the accepted name). -/
def joiDone (nm : String) : Option JsVal → Except String NormItem
  | none => Except.ok ⟨nm, false⟩
  | some (JsVal.vbool b) => Except.ok ⟨nm, b⟩
  | some (JsVal.vstr d) =>
    if strLower d = "true" then Except.ok ⟨nm, true⟩
    else if strLower d = "false" then Except.ok ⟨nm, false⟩
    else Except.error "done must be a boolean"
  | some _ => Except.error "done must be a boolean"

/-- The `name: Joi.string().min(1).max(120).required()` rule; on success
continue with the `done` rule (`dn` is the body's done field). -/
def joiName (dn : Option JsVal) : Option JsVal → Except String NormItem
  | none => Except.error "name is required"
  | some (JsVal.vstr s) =>
    if s.length < 1 then Except.error "name is not allowed to be empty"
    else if 120 < s.length then
      Except.error "name length must be less than or equal to 120"
    else joiDone s dn
  | some _ => Except.error "name must be a string"

/-- The whole `itemSchema.validate(body)` call: Joi objects reject
unknown keys by default, then the field rules run. -/
def joiValidateItem (body : Body) : Except String NormItem :=
  if body.extra then Except.error "object.unknown"
  else joiName body.done body.name

/-- The fallback branch of `validateItem` (active when Joi is not
installed): reject unless `body.name` is a string with non-empty trim,
and return `\x7b name: body.name.trim(), done: Boolean(body.done) \x7d`.
(The `!body` guard of the source cannot fire here because parsed bodies
in this model are always objects.) -/
def fallbackValidateItem (body : Body) : Except String NormItem :=
  match body.name with
  | some (JsVal.vstr s) =>
    if strTrim s = "" then Except.error "name is required"
    else Except.ok ⟨strTrim s, jsTruthy body.done⟩
  | _ => Except.error "name is required"

/-- The source's `validateItem(body)`: the Joi path when the Joi module
loaded, the manual fallback otherwise. -/
def validateItem (joi : Bool) (body : Body) : Except String NormItem :=
  if joi then joiValidateItem body else fallbackValidateItem body

/-- One record of the store: `\x7b id, name, done \x7d`. -/
structure Item where
  id : String
  name : String
  done : Bool
  deriving DecidableEq

/-- The seed contents of `store.items` at server start. -/
def initialStore : List Item :=
  [⟨"1", "First", false⟩, ⟨"2", "Second", true⟩]

/-- The list of `id` fields of a store state. -/
def storeIds (s : List Item) : List String :=
  s.map Item.id

/-- Outcome of `POST /items`: 201 with the created item, or a 400 from
the thrown validation error (caught by the central error handler, which
leaves the store untouched). -/
inductive PostRes where
  | created (item : Item)
  | badRequest (msg : String)
  deriving DecidableEq

/-- Is this `POST` outcome a 400? -/
def PostRes.isBad : PostRes → Bool
  | PostRes.badRequest _ => true
  | _ => false

/-- The `POST /items` handler at clock instant `now`:
validate, then `id = String(Date.now())`, `item = \x7b id, ...validated \x7d`,
`store.items.push(item)`, respond 201 with the item. -/
def postItems (joi : Bool) (now : Nat) (body : Body) (s : List Item) :
    PostRes × List Item :=
  match validateItem joi body with
  | Except.error m => (PostRes.badRequest m, s)
  | Except.ok v =>
    let item : Item := ⟨Nat.repr now, v.name, v.done⟩
    (PostRes.created item, s ++ [item])

/-- Outcome of `PUT /items/:id`: 200 with the updated item, 404 for an
unknown id, or a 400 from the validation error. -/
inductive PutRes where
  | updated (item : Item)
  | notFound
  | badRequest (msg : String)
  deriving DecidableEq

/-- Model of `findIndex` on the id followed by in-place overwrite
`store.items[idx] = \x7b ...store.items[idx], ...validated \x7d`: replace the
first item whose id matches, keeping its position and its `id` field;
`none` when no item matches. -/
def replaceFirst (pid : String) (v : NormItem) :
    List Item → Option (Item × List Item)
  | [] => none
  | x :: xs =>
    if x.id = pid then
      let y : Item := ⟨x.id, v.name, v.done⟩
      some (y, y :: xs)
    else
      match replaceFirst pid v xs with
      | none => none
      | some (y, ys) => some (y, x :: ys)

/-- The `PUT /items/:id` handler: validate the body first, then look the
id up; 404 when it is absent, otherwise overwrite the non-id fields of
the matched item in place and respond with the updated item. -/
def putItem (joi : Bool) (pid : String) (body : Body) (s : List Item) :
    PutRes × List Item :=
  match validateItem joi body with
  | Except.error m => (PutRes.badRequest m, s)
  | Except.ok v =>
    match replaceFirst pid v s with
    | none => (PutRes.notFound, s)
    | some (y, s') => (PutRes.updated y, s')

/-- The `DELETE /items/:id` handler:
`store.items = store.items.filter(x => x.id !== id)`; the response is
always 200 with `removed` = whether the length changed. -/
def deleteItem (pid : String) (s : List Item) : Bool × List Item :=
  let s' := s.filter (fun x => x.id != pid)
  (s.length != s'.length, s')

/-- The `GET /items` handler: respond with the current `store.items`. -/
def getItems (s : List Item) : List Item :=
  s

/-- Outcome of `GET /me`: 200 with the echoed user, or 401 from
`authStub`. -/
inductive MeRes where
  | okUser (uid : String) (token : String)
  | unauthorized
  deriving DecidableEq

/-- Composition of `authStub` with the `GET /me` handler: the header
`x-demo-token` missing or empty (`!token`) gives a 401; any other value
gives 200 with `\x7b user: \x7b id: 'user-123', token \x7d \x7d`.  The store is
passed through untouched. -/
def getMe (token : Option String) (s : List Item) : MeRes × List Item :=
  match token with
  | none => (MeRes.unauthorized, s)
  | some tk =>
    if tk = "" then (MeRes.unauthorized, s)
    else (MeRes.okUser "user-123" tk, s)

/-- A mutating request against the item collection: a `POST /items` at a
given clock instant, or a `DELETE /items/:id`. -/
inductive Op where
  | post (now : Nat) (body : Body)
  | del (pid : String)
  deriving DecidableEq

/-- Run a sequence of requests against a store state. -/
def runOps (joi : Bool) : List Item → List Op → List Item
  | s, [] => s
  | s, Op.post t b :: rest => runOps joi (postItems joi t b s).2 rest
  | s, Op.del pid :: rest => runOps joi (deleteItem pid s).2 rest

/-- The items created by the successful `POST`s of a request sequence, in
creation order (validation and id assignment do not read the store). -/
def createdItems (joi : Bool) : List Op → List Item
  | [] => []
  | Op.post t b :: rest =>
    match validateItem joi b with
    | Except.ok v => ⟨Nat.repr t, v.name, v.done⟩ :: createdItems joi rest
    | Except.error _ => createdItems joi rest
  | Op.del _ :: rest => createdItems joi rest

/-- The clock instants of all `POST`s of a request sequence. -/
def postTimes : List Op → List Nat
  | [] => []
  | Op.post t _ :: rest => t :: postTimes rest
  | Op.del _ :: rest => postTimes rest

/-- The ids `String(Date.now())` assigned by the `POST`s of a request
sequence. -/
def postIds (ops : List Op) : List String :=
  (postTimes ops).map Nat.repr

/-- The number of deletes of a request sequence that respond
`removed: true`. -/
def succDeletes (joi : Bool) : List Item → List Op → Nat
  | _, [] => 0
  | s, Op.post t b :: rest => succDeletes joi (postItems joi t b s).2 rest
  | s, Op.del pid :: rest =>
    (if (deleteItem pid s).1 then 1 else 0) +
      succDeletes joi (deleteItem pid s).2 rest

/-! ## Helper lemmas about the store operations -/

lemma replaceFirst_eq_none_iff (pid : String) (v : NormItem) :
    ∀ s : List Item, replaceFirst pid v s = none ↔ ∀ x ∈ s, x.id ≠ pid := by
  intro s
  induction s with
  | nil => simp [replaceFirst]
  | cons x xs ih =>
    by_cases hx : x.id = pid
    · simp [replaceFirst, hx]
    · simp only [replaceFirst, hx, if_false]
      cases hr : replaceFirst pid v xs with
      | none =>
        simp only [List.mem_cons]
        constructor
        · intro _ y hy
          rcases hy with rfl | hy
          · exact hx
          · exact (ih.mp hr) y hy
        · intro _; trivial
      | some p =>
        simp only [List.mem_cons]
        constructor
        · intro hc; exact absurd hc (by simp)
        · intro hall
          have : replaceFirst pid v xs = none :=
            ih.mpr (fun y hy => hall y (Or.inr hy))
          rw [this] at hr; exact absurd hr (by simp)

lemma replaceFirst_append (pid : String) (v : NormItem) (old : Item)
    (post : List Item) (hold : old.id = pid) :
    ∀ pre : List Item, (∀ x ∈ pre, x.id ≠ pid) →
    replaceFirst pid v (pre ++ old :: post)
      = some (⟨old.id, v.name, v.done⟩, pre ++ ⟨old.id, v.name, v.done⟩ :: post) := by
  intro pre
  induction pre with
  | nil => intro _; simp [replaceFirst, hold]
  | cons x xs ih =>
    intro hall
    have hx : x.id ≠ pid := hall x (List.mem_cons_self x xs)
    have hxs : ∀ y ∈ xs, y.id ≠ pid := fun y hy => hall y (List.mem_cons_of_mem x hy)
    simp only [List.cons_append, replaceFirst, hx, if_false, List.append_eq, ih hxs]

lemma deleteItem_removed_iff (pid : String) (s : List Item) :
    (deleteItem pid s).1 = true ↔ ∃ x ∈ s, x.id = pid := by
  have hle := s.length_filter_le (fun x => x.id != pid)
  have hlt := List.length_filter_lt_length_iff_exists
    (p := fun x : Item => x.id != pid) (l := s)
  constructor
  · intro h
    simp only [deleteItem, bne_iff_ne, ne_eq, decide_not] at h
    have hne : s.length ≠ (s.filter (fun x => x.id != pid)).length := by
      simpa [deleteItem] using h
    have : (s.filter (fun x => x.id != pid)).length < s.length := by omega
    obtain ⟨x, hx, hpx⟩ := hlt.mp this
    exact ⟨x, hx, by simpa using hpx⟩
  · rintro ⟨x, hx, hpx⟩
    have : (s.filter (fun x => x.id != pid)).length < s.length :=
      hlt.mpr ⟨x, hx, by simp [hpx]⟩
    simp only [deleteItem, bne_iff_ne, ne_eq]
    omega

lemma deleteItem_mem (pid : String) (s : List Item) :
    ∀ x ∈ (deleteItem pid s).2, x.id ≠ pid := by
  intro x hx
  simp only [deleteItem, List.mem_filter, bne_iff_ne, ne_eq] at hx
  exact hx.2

lemma nodup_length_le_filter_succ (pid : String) :
    ∀ s : List Item, (storeIds s).Nodup →
    s.length ≤ (s.filter (fun x => x.id != pid)).length + 1 := by
  intro s
  induction s with
  | nil => simp
  | cons x xs ih =>
    intro h
    simp only [storeIds, List.map_cons, List.nodup_cons] at h
    obtain ⟨hx, hxs⟩ := h
    by_cases hxp : x.id = pid
    · have hfx : xs.filter (fun y => y.id != pid) = xs := by
        apply List.filter_eq_self.mpr
        intro y hy
        have : y.id ≠ pid := by
          intro he
          exact hx (by
            rw [hxp, ← he]
            exact List.mem_map_of_mem Item.id hy)
        simpa using this
      rw [List.filter_cons_of_neg (by simp [hxp]), hfx, List.length_cons]
    · have hih := ih hxs
      rw [List.filter_cons_of_pos (by simp [hxp]), List.length_cons, List.length_cons]
      omega

/-! ## Claim theorems -/

/-- Claim C9: on a freshly started server the Store already holds the two
seed items `id 1 / First / not done` and `id 2 / Second / done`, so the
first `GET /items` returns these two items rather than an empty list. -/
theorem seed_store_contents :
    getItems initialStore = [⟨"1", "First", false⟩, ⟨"2", "Second", true⟩]
    ∧ (getItems initialStore).length = 2 := by
  constructor <;> rfl

/-- Claim C8 counterexample: a request carrying the `x-demo-token` header
with the empty string as value has the header present, yet `GET /me`
responds 401, not 200 — the claim's "otherwise the response is 200"
fails for this input. -/
theorem me_empty_token_unauthorized :
    getMe (some "") initialStore = (MeRes.unauthorized, initialStore) := by
  rfl

/-- Claim C8, amended: `GET /me` responds 401 when the token header is
absent or empty, responds 200 echoing `user-123` with the token when it
is non-empty, and never changes the Store. -/
theorem me_token_behavior (t : Option String) (s : List Item) :
    (getMe t s).2 = s
    ∧ ((t = none ∨ t = some "") → (getMe t s).1 = MeRes.unauthorized)
    ∧ (∀ tk, t = some tk → tk ≠ "" → (getMe t s).1 = MeRes.okUser "user-123" tk) := by
  refine ⟨?_, ?_, ?_⟩
  · cases t with
    | none => rfl
    | some tk => by_cases h : tk = "" <;> simp [getMe, h]
  · rintro (rfl | rfl) <;> simp [getMe]
  · rintro tk rfl hne
    simp [getMe, hne]

/-- Witness for C8's amended theorem at a concrete non-empty token. -/
theorem me_token_behavior_witness :
    (getMe (some "tok") initialStore).2 = initialStore
    ∧ (getMe (some "tok") initialStore).1 = MeRes.okUser "user-123" "tok" :=
  ⟨(me_token_behavior (some "tok") initialStore).1,
   (me_token_behavior (some "tok") initialStore).2.2 "tok" rfl (by decide)⟩

/-- Claim C5: deleting an id that occurs exactly once responds
`removed: true` and a second identical delete responds `removed: false`;
in general `DELETE` removes every item with the matching id and its
`removed` flag states exactly whether something was removed (the handler
has no error path). -/
theorem delete_idempotent (pid : String) (s : List Item)
    (hone : (storeIds s).count pid = 1) :
    (deleteItem pid s).1 = true
    ∧ (deleteItem pid (deleteItem pid s).2).1 = false
    ∧ (∀ (qid : String) (u : List Item),
        (∀ x ∈ (deleteItem qid u).2, x.id ≠ qid)
        ∧ ((deleteItem qid u).1 = true ↔ ∃ x ∈ u, x.id = qid)) := by
  refine ⟨?_, ?_, fun qid u => ⟨deleteItem_mem qid u, deleteItem_removed_iff qid u⟩⟩
  · apply (deleteItem_removed_iff pid s).mpr
    have hpos : 0 < (storeIds s).count pid := by omega
    have hmem : pid ∈ storeIds s := List.count_pos_iff.mp hpos
    obtain ⟨x, hx, hxe⟩ := List.mem_map.mp hmem
    exact ⟨x, hx, hxe⟩
  · cases hb : (deleteItem pid (deleteItem pid s).2).1 with
    | false => rfl
    | true =>
      obtain ⟨x, hx, hxe⟩ := (deleteItem_removed_iff pid (deleteItem pid s).2).mp hb
      exact absurd hxe (deleteItem_mem pid s x hx)

/-- Witness for C5 on the seed store and id 1. -/
theorem delete_idempotent_witness :
    (storeIds initialStore).count "1" = 1
    ∧ (deleteItem "1" initialStore).1 = true
    ∧ (deleteItem "1" (deleteItem "1" initialStore).2).1 = false :=
  ⟨by decide, (delete_idempotent "1" initialStore (by decide)).1,
   (delete_idempotent "1" initialStore (by decide)).2.1⟩

/-- Claim C2 counterexample: a `PUT /items/999` — id 999 is not in the
seed store — whose body lacks a name responds 400, not the 404 the claim
promises for every request body. -/
theorem put_unknown_id_invalid_body_400 :
    putItem true "999" ⟨none, none, false⟩ initialStore
      = (PutRes.badRequest "name is required", initialStore) := by
  rfl

/-- Claim C2, amended: for every id not present in the Store and every
request body that passes validation, `PUT /items/:id` responds 404 and
leaves the Store's ordered contents unchanged (an invalid body instead
yields 400, validation running first). -/
theorem put_unknown_id_404 (joi : Bool) (pid : String) (b : Body)
    (s : List Item) (v : NormItem)
    (hok : validateItem joi b = Except.ok v)
    (habs : ∀ x ∈ s, x.id ≠ pid) :
    putItem joi pid b s = (PutRes.notFound, s) := by
  simp only [putItem, hok, (replaceFirst_eq_none_iff pid v s).mpr habs]

/-- Witness for C2's amended theorem: a valid body against an unknown id
on the seed store. -/
theorem put_unknown_id_404_witness :
    validateItem true ⟨some (JsVal.vstr "New"), none, false⟩
      = Except.ok ⟨"New", false⟩
    ∧ (∀ x ∈ initialStore, x.id ≠ "999")
    ∧ putItem true "999" ⟨some (JsVal.vstr "New"), none, false⟩ initialStore
        = (PutRes.notFound, initialStore) :=
  ⟨rfl, by decide,
   put_unknown_id_404 true "999" ⟨some (JsVal.vstr "New"), none, false⟩
     initialStore ⟨"New", false⟩ rfl (by decide)⟩

/-- Claim C7: a `PUT` on the id of an item present in the Store with a
body that passes validation overwrites exactly that item's non-id
fields: the item keeps its id and its position, and every other item of
the Store is untouched. -/
theorem put_overwrites_in_place (joi : Bool) (b : Body) (v : NormItem)
    (pre post : List Item) (old : Item)
    (hok : validateItem joi b = Except.ok v)
    (hpre : ∀ x ∈ pre, x.id ≠ old.id) :
    putItem joi old.id b (pre ++ old :: post)
      = (PutRes.updated ⟨old.id, v.name, v.done⟩,
         pre ++ ⟨old.id, v.name, v.done⟩ :: post) := by
  simp only [putItem, hok, replaceFirst_append old.id v old post rfl pre hpre]

/-- Witness for C7: updating seed item 2 in place. -/
theorem put_overwrites_in_place_witness :
    validateItem true ⟨some (JsVal.vstr "Second v2"), some (JsVal.vbool false), false⟩
      = Except.ok ⟨"Second v2", false⟩
    ∧ (∀ x ∈ [(⟨"1", "First", false⟩ : Item)], x.id ≠ "2")
    ∧ putItem true "2" ⟨some (JsVal.vstr "Second v2"), some (JsVal.vbool false), false⟩
        initialStore
        = (PutRes.updated ⟨"2", "Second v2", false⟩,
           [⟨"1", "First", false⟩, ⟨"2", "Second v2", false⟩]) :=
  ⟨rfl, by decide,
   put_overwrites_in_place true
     ⟨some (JsVal.vstr "Second v2"), some (JsVal.vbool false), false⟩
     ⟨"Second v2", false⟩ [⟨"1", "First", false⟩] [] ⟨"2", "Second", true⟩
     rfl (by decide)⟩

/-- Claim C10: in `PUT /items/:id` body validation runs before the id
lookup — a failing body gives the validation error's 400 with the Store
untouched whatever the id, and a 404 can only arise for a body that
validated successfully against an id absent from the Store. -/
theorem put_validates_before_lookup (joi : Bool) (pid : String) (b : Body)
    (s : List Item) :
    (∀ m, validateItem joi b = Except.error m →
        putItem joi pid b s = (PutRes.badRequest m, s))
    ∧ ((putItem joi pid b s).1 = PutRes.notFound →
        (validateItem joi b).isOk = true ∧ ∀ x ∈ s, x.id ≠ pid) := by
  constructor
  · intro m hm
    simp [putItem, hm]
  · intro hnf
    cases hv : validateItem joi b with
    | error m =>
      simp only [putItem, hv] at hnf
      exact absurd hnf (by simp)
    | ok v =>
      refine ⟨rfl, ?_⟩
      cases hr : replaceFirst pid v s with
      | none => exact (replaceFirst_eq_none_iff pid v s).mp hr
      | some p =>
        simp only [putItem, hv, hr] at hnf
        exact absurd hnf (by simp)

/-- Witness for C10: an invalid body on an unknown id yields the 400. -/
theorem put_validates_before_lookup_witness :
    validateItem true ⟨some (JsVal.vbool true), none, false⟩
      = Except.error "name must be a string"
    ∧ putItem true "999" ⟨some (JsVal.vbool true), none, false⟩ initialStore
        = (PutRes.badRequest "name must be a string", initialStore) :=
  ⟨rfl,
   (put_validates_before_lookup true "999" ⟨some (JsVal.vbool true), none, false⟩
      initialStore).1 "name must be a string" rfl⟩

lemma postItems_error (joi : Bool) (t : Nat) (b : Body) (s : List Item)
    (m : String) (h : validateItem joi b = Except.error m) :
    postItems joi t b s = (PostRes.badRequest m, s) := by
  simp [postItems, h]

lemma joiValidate_empty_name (b : Body)
    (hname : b.name = some (JsVal.vstr "")) :
    ∃ m, joiValidateItem b = Except.error m := by
  by_cases he : b.extra
  · exact ⟨"object.unknown", by simp [joiValidateItem, he]⟩
  · refine ⟨"name is not allowed to be empty", ?_⟩
    unfold joiValidateItem
    rw [if_neg he, hname]
    simp only [joiName]
    rw [if_pos (by decide : ("" : String).length < 1)]

lemma fallbackValidate_blank_name (b : Body) (nm : String)
    (hname : b.name = some (JsVal.vstr nm)) (hblank : strTrim nm = "") :
    fallbackValidateItem b = Except.error "name is required" := by
  simp [fallbackValidateItem, hname, hblank]

lemma joiValidate_ok_shape (b : Body) (v : NormItem) (nm : String)
    (hname : b.name = some (JsVal.vstr nm))
    (hok : joiValidateItem b = Except.ok v) :
    v.name = nm ∧ 1 ≤ nm.length ∧ nm.length ≤ 120
    ∧ (b.done = none → v.done = false) := by
  by_cases he : b.extra
  · simp [joiValidateItem, he] at hok
  · unfold joiValidateItem at hok
    rw [if_neg he, hname] at hok
    simp only [joiName] at hok
    by_cases h1 : nm.length < 1
    · rw [if_pos h1] at hok; exact absurd hok (by simp)
    rw [if_neg h1] at hok
    by_cases h2 : 120 < nm.length
    · rw [if_pos h2] at hok; exact absurd hok (by simp)
    rw [if_neg h2] at hok
    cases hd : b.done with
    | none =>
      rw [hd] at hok
      simp only [joiDone] at hok
      cases hok
      exact ⟨rfl, by omega, by omega, fun _ => rfl⟩
    | some w =>
      rw [hd] at hok
      cases w with
      | vbool bb =>
        simp only [joiDone] at hok
        cases hok
        exact ⟨rfl, by omega, by omega, fun hc => by simp [hd] at hc⟩
      | vstr d =>
        simp only [joiDone] at hok
        by_cases hT : strLower d = "true"
        · rw [if_pos hT] at hok
          cases hok
          exact ⟨rfl, by omega, by omega, fun hc => by simp [hd] at hc⟩
        rw [if_neg hT] at hok
        by_cases hF : strLower d = "false"
        · rw [if_pos hF] at hok
          cases hok
          exact ⟨rfl, by omega, by omega, fun hc => by simp [hd] at hc⟩
        · rw [if_neg hF] at hok
          exact absurd hok (by simp)
      | vnum n =>
        simp only [joiDone] at hok
        exact absurd hok (by simp)
      | vnull =>
        simp only [joiDone] at hok
        exact absurd hok (by simp)

lemma fallbackValidate_ok_shape (b : Body) (v : NormItem) (nm : String)
    (hname : b.name = some (JsVal.vstr nm))
    (hok : fallbackValidateItem b = Except.ok v) :
    v.name = strTrim nm ∧ 1 ≤ (strTrim nm).length
    ∧ (b.done = none → v.done = false) := by
  simp only [fallbackValidateItem, hname] at hok
  by_cases hne : strTrim nm = ""
  · rw [if_pos hne] at hok
    exact absurd hok (by simp)
  · rw [if_neg hne] at hok
    cases hok
    refine ⟨rfl, ?_, fun hd => by simp [jsTruthy, hd]⟩
    have hlen : (strTrim nm).length ≠ 0 := by
      intro h0
      apply hne
      have hd2 : (strTrim nm).data = [] := List.length_eq_zero.mp h0
      exact String.ext (by rw [hd2])
    omega

/-- Claim C3 counterexample: a `POST /items` whose name is the
whitespace-only string consisting of one space is accepted with 201 by
the Joi validation path (the schema performs no trimming, and a single
space has length 1), contradicting the claim that it always yields
400. -/
theorem joi_accepts_whitespace_name :
    postItems true 5 ⟨some (JsVal.vstr " "), none, false⟩ initialStore
      = (PostRes.created ⟨"5", " ", false⟩,
         initialStore ++ [⟨"5", " ", false⟩]) := by
  rfl

/-- Claim C3, amended: a `POST /items` whose name is the empty string
yields 400 with the Store unchanged under the Joi path, and a name that
is empty or whitespace-only (empty after trimming) yields 400 with the
Store unchanged under the fallback manual path; the Joi path, however,
accepts whitespace-only non-empty names since the schema does not
trim. -/
theorem post_empty_name_400 (joi : Bool) (t : Nat) (s : List Item) (b : Body)
    (nm : String) (hname : b.name = some (JsVal.vstr nm)) :
    (joi = true → nm = "" →
        (postItems joi t b s).1.isBad = true ∧ (postItems joi t b s).2 = s)
    ∧ (joi = false → strTrim nm = "" →
        (postItems joi t b s).1.isBad = true ∧ (postItems joi t b s).2 = s) := by
  constructor
  · rintro rfl rfl
    obtain ⟨m, hm⟩ := joiValidate_empty_name b hname
    have hv : validateItem true b = Except.error m := by
      simpa [validateItem] using hm
    rw [postItems_error true t b s m hv]
    exact ⟨rfl, rfl⟩
  · rintro rfl hblank
    have hv : validateItem false b = Except.error "name is required" := by
      simpa [validateItem] using fallbackValidate_blank_name b nm hname hblank
    rw [postItems_error false t b s _ hv]
    exact ⟨rfl, rfl⟩

/-- Witness for C3's amended theorem: the empty name on the Joi path and
a whitespace-only name on the fallback path, against the seed store. -/
theorem post_empty_name_400_witness :
    ((⟨some (JsVal.vstr ""), none, false⟩ : Body).name = some (JsVal.vstr "")
      ∧ (postItems true 7 ⟨some (JsVal.vstr ""), none, false⟩ initialStore).1.isBad = true
      ∧ (postItems true 7 ⟨some (JsVal.vstr ""), none, false⟩ initialStore).2 = initialStore)
    ∧ ((⟨some (JsVal.vstr "  "), none, false⟩ : Body).name = some (JsVal.vstr "  ")
      ∧ strTrim "  " = ""
      ∧ (postItems false 7 ⟨some (JsVal.vstr "  "), none, false⟩ initialStore).1.isBad = true
      ∧ (postItems false 7 ⟨some (JsVal.vstr "  "), none, false⟩ initialStore).2 = initialStore) :=
  ⟨⟨rfl,
    (post_empty_name_400 true 7 initialStore ⟨some (JsVal.vstr ""), none, false⟩
        "" rfl).1 rfl rfl⟩,
   ⟨rfl, by decide,
    ((post_empty_name_400 false 7 initialStore ⟨some (JsVal.vstr "  "), none, false⟩
        "  " rfl).2 rfl (by decide)).1,
    ((post_empty_name_400 false 7 initialStore ⟨some (JsVal.vstr "  "), none, false⟩
        "  " rfl).2 rfl (by decide)).2⟩⟩

/-- Claim C4 counterexample: the Joi path accepts the name with
surrounding spaces unchanged — the accepted value is not the trimmed
input the claim promises — and the fallback path accepts a name whose
trimmed length is 121, outside the claimed [1, 120] bound. -/
theorem joi_name_not_trimmed :
    (validateItem true ⟨some (JsVal.vstr " a "), none, false⟩
        = Except.ok ⟨" a ", false⟩
      ∧ strTrim " a " ≠ " a ")
    ∧ (validateItem false
          ⟨some (JsVal.vstr (String.mk (List.replicate 121 'a'))), none, false⟩
        = Except.ok ⟨String.mk (List.replicate 121 'a'), false⟩
      ∧ 120 < (String.mk (List.replicate 121 'a')).length) :=
  ⟨⟨rfl, by decide⟩, ⟨rfl, by decide⟩⟩

/-- Claim C4, amended: when validation succeeds on an input whose name
field holds the string `nm`, the Joi path returns `nm` itself (untrimmed)
with its length in [1, 120], while the fallback path returns the trimmed
`nm` with length at least 1 and no upper bound; in both paths `done`
defaults to false when the field is absent. -/
theorem validate_ok_normal_form (joi : Bool) (b : Body) (v : NormItem)
    (nm : String) (hname : b.name = some (JsVal.vstr nm))
    (hok : validateItem joi b = Except.ok v) :
    (joi = true → v.name = nm ∧ 1 ≤ nm.length ∧ nm.length ≤ 120)
    ∧ (joi = false → v.name = strTrim nm ∧ 1 ≤ (strTrim nm).length)
    ∧ (b.done = none → v.done = false) := by
  cases joi with
  | false =>
    have h := fallbackValidate_ok_shape b v nm hname
      (by simpa [validateItem] using hok)
    exact ⟨fun hc => absurd hc (by simp), fun _ => ⟨h.1, h.2.1⟩, h.2.2⟩
  | true =>
    have h := joiValidate_ok_shape b v nm hname
      (by simpa [validateItem] using hok)
    exact ⟨fun _ => ⟨h.1, h.2.1, h.2.2.1⟩, fun hc => absurd hc (by simp), h.2.2.2⟩

/-- Witness for C4's amended theorem on a plain two-letter name. -/
theorem validate_ok_normal_form_witness :
    (⟨some (JsVal.vstr "Hi"), none, false⟩ : Body).name = some (JsVal.vstr "Hi")
    ∧ validateItem true ⟨some (JsVal.vstr "Hi"), none, false⟩
        = Except.ok ⟨"Hi", false⟩
    ∧ (NormItem.name ⟨"Hi", false⟩ = "Hi" ∧ 1 ≤ "Hi".length ∧ "Hi".length ≤ 120)
    ∧ NormItem.done ⟨"Hi", false⟩ = false :=
  ⟨rfl, rfl,
   (validate_ok_normal_form true ⟨some (JsVal.vstr "Hi"), none, false⟩
      ⟨"Hi", false⟩ "Hi" rfl rfl).1 rfl,
   (validate_ok_normal_form true ⟨some (JsVal.vstr "Hi"), none, false⟩
      ⟨"Hi", false⟩ "Hi" rfl rfl).2.2 rfl⟩

/-! ## Injectivity of the decimal id rendering

The ids assigned by `POST /items` are `String(Date.now())`, i.e.
`Nat.repr` of the clock instant.  To relate distinct instants to
distinct ids we show that `Nat.repr` (whose core loops over a fuel
argument) agrees with the little-endian digit expansion `Nat.digits`,
which has a left inverse. -/

lemma toDigitsCore_eq_digits :
    ∀ (f n : Nat) (acc : List Char), n < 10 ^ f → 0 < f →
    Nat.toDigitsCore 10 f n acc
      = (if n = 0 then ['0']
         else ((Nat.digits 10 n).map Nat.digitChar).reverse) ++ acc := by
  intro f
  induction f with
  | zero => intro n acc _ h0; omega
  | succ f ih =>
    intro n acc hlt _
    simp only [Nat.toDigitsCore]
    by_cases hz : n / 10 = 0
    · rw [if_pos hz]
      have hn10 : n < 10 := (Nat.div_eq_zero_iff (by norm_num)).mp hz
      by_cases hn0 : n = 0
      · subst hn0
        rw [if_pos rfl]
        rfl
      · rw [if_neg hn0]
        have hdig : Nat.digits 10 n = [n] := by
          rw [Nat.digits_def' (by norm_num : (1 : ℕ) < 10) (Nat.pos_of_ne_zero hn0),
            hz, Nat.mod_eq_of_lt hn10]
          simp
        rw [hdig, Nat.mod_eq_of_lt hn10]
        rfl
    · rw [if_neg hz]
      have hn0 : n ≠ 0 := by
        intro h
        subst h
        simp at hz
      have h10 : 10 ≤ n := by
        rcases Nat.lt_or_ge n 10 with h | h
        · exact absurd ((Nat.div_eq_zero_iff (by norm_num)).mpr h) hz
        · exact h
      have hf0 : 0 < f := by
        rcases Nat.eq_zero_or_pos f with rfl | h
        · norm_num at hlt
          omega
        · exact h
      have hdivlt : n / 10 < 10 ^ f := by
        rw [Nat.div_lt_iff_lt_mul (by norm_num)]
        calc n < 10 ^ (f + 1) := hlt
          _ = 10 ^ f * 10 := by rw [pow_succ]
      rw [ih (n / 10) (Nat.digitChar (n % 10) :: acc) hdivlt hf0,
        if_neg hz, if_neg hn0,
        Nat.digits_def' (by norm_num : (1 : ℕ) < 10) (Nat.pos_of_ne_zero hn0)]
      simp [List.reverse_cons, List.append_assoc]

lemma repr_eq_digits (n : Nat) :
    Nat.repr n
      = List.asString (if n = 0 then ['0']
          else ((Nat.digits 10 n).map Nat.digitChar).reverse) := by
  have h2 : n < 2 ^ n := Nat.lt_two_pow n
  have hle : 2 ^ n ≤ 10 ^ n := Nat.pow_le_pow_left (by norm_num) n
  have hle2 : 10 ^ n ≤ 10 ^ (n + 1) := Nat.pow_le_pow_right (by norm_num) (Nat.le_succ n)
  have hlt : n < 10 ^ (n + 1) := by omega
  show (Nat.toDigits 10 n).asString = _
  rw [Nat.toDigits, toDigitsCore_eq_digits (n + 1) n [] hlt (Nat.succ_pos n),
    List.append_nil]

lemma digitChar_inj_lt :
    ∀ d, d < 10 → ∀ e, e < 10 → Nat.digitChar d = Nat.digitChar e → d = e := by
  decide

lemma map_digitChar_inj :
    ∀ (l₁ l₂ : List Nat), (∀ d ∈ l₁, d < 10) → (∀ d ∈ l₂, d < 10) →
    l₁.map Nat.digitChar = l₂.map Nat.digitChar → l₁ = l₂ := by
  intro l₁
  induction l₁ with
  | nil =>
    intro l₂ _ _ h
    cases l₂ with
    | nil => rfl
    | cons y ys => simp at h
  | cons x xs ih =>
    intro l₂ h₁ h₂ h
    cases l₂ with
    | nil => simp at h
    | cons y ys =>
      simp only [List.map_cons, List.cons.injEq] at h
      have hx := h₁ x (List.mem_cons_self x xs)
      have hy := h₂ y (List.mem_cons_self y ys)
      rw [digitChar_inj_lt x hx y hy h.1,
        ih ys (fun d hd => h₁ d (List.mem_cons_of_mem x hd))
          (fun d hd => h₂ d (List.mem_cons_of_mem y hd)) h.2]

lemma digits_bounded (n : Nat) : ∀ d ∈ Nat.digits 10 n, d < 10 :=
  fun _ hd => Nat.digits_lt_base (by norm_num) hd

lemma repr_eq_zero_digits (m : Nat) (hm : m ≠ 0)
    (h : ((Nat.digits 10 m).map Nat.digitChar).reverse = ['0']) : False := by
  have hrev : (Nat.digits 10 m).map Nat.digitChar = ['0'] := by
    have := congrArg List.reverse h
    simpa using this
  have hdm : Nat.digits 10 m = [0] :=
    map_digitChar_inj (Nat.digits 10 m) [0] (digits_bounded m) (by decide) hrev
  have hzero : m = 0 := by
    have := (Nat.ofDigits_digits 10 m).symm
    rw [hdm] at this
    simpa [Nat.ofDigits] using this
  exact hm hzero

lemma repr_injective : Function.Injective Nat.repr := by
  intro n m h
  rw [repr_eq_digits n, repr_eq_digits m] at h
  have h' := congrArg String.data h
  simp only [List.asString] at h'
  by_cases hn : n = 0 <;> by_cases hm : m = 0
  · rw [hn, hm]
  · rw [if_pos hn, if_neg hm] at h'
    exact absurd h'.symm (fun hc => repr_eq_zero_digits m hm hc)
  · rw [if_neg hn, if_pos hm] at h'
    exact absurd h' (fun hc => repr_eq_zero_digits n hn hc)
  · rw [if_neg hn, if_neg hm] at h'
    have hmap := List.reverse_injective h'
    have hdig := map_digitChar_inj (Nat.digits 10 n) (Nat.digits 10 m)
      (digits_bounded n) (digits_bounded m) hmap
    have := congrArg (Nat.ofDigits 10) hdig
    rwa [Nat.ofDigits_digits, Nat.ofDigits_digits] at this

/-! ## Invariant of request traces -/

lemma postIds_cons_post (t : Nat) (b : Body) (ops : List Op) :
    postIds (Op.post t b :: ops) = Nat.repr t :: postIds ops :=
  rfl

lemma postIds_cons_del (pid : String) (ops : List Op) :
    postIds (Op.del pid :: ops) = postIds ops :=
  rfl

lemma storeIds_append (s₁ s₂ : List Item) :
    storeIds (s₁ ++ s₂) = storeIds s₁ ++ storeIds s₂ := by
  simp [storeIds]

lemma deleteItem_length (pid : String) (s : List Item)
    (hs : (storeIds s).Nodup) :
    (deleteItem pid s).2.length + (if (deleteItem pid s).1 then 1 else 0)
      = s.length := by
  have hle := s.length_filter_le (fun x => x.id != pid)
  have hone := nodup_length_le_filter_succ pid s hs
  have h2 : (deleteItem pid s).2 = s.filter (fun x => x.id != pid) := rfl
  cases hb : (deleteItem pid s).1 with
  | true =>
    obtain ⟨x, hx, hxe⟩ := (deleteItem_removed_iff pid s).mp hb
    have hlt : (s.filter (fun x => x.id != pid)).length < s.length :=
      (List.length_filter_lt_length_iff_exists
        (p := fun x : Item => x.id != pid) (l := s)).mpr ⟨x, hx, by simp [hxe]⟩
    rw [h2, if_pos rfl]
    omega
  | false =>
    have hb' : (s.length != (s.filter (fun x => x.id != pid)).length) = false := hb
    have heq : s.length = (s.filter (fun x => x.id != pid)).length := by
      simpa using hb'
    rw [h2, if_neg (by simp)]
    omega

lemma runOps_invariant (joi : Bool) :
    ∀ (ops : List Op) (s : List Item),
    (storeIds s).Nodup →
    (postIds ops).Nodup →
    (∀ i ∈ postIds ops, i ∉ storeIds s) →
    (storeIds (runOps joi s ops)).Nodup
    ∧ List.Sublist (runOps joi s ops) (s ++ createdItems joi ops)
    ∧ (runOps joi s ops).length + succDeletes joi s ops
        = s.length + (createdItems joi ops).length := by
  intro ops
  induction ops with
  | nil =>
    intro s hs _ _
    exact ⟨hs, by simp [runOps, createdItems],
      by simp [runOps, succDeletes, createdItems]⟩
  | cons op rest ih =>
    intro s hs hnd hdisj
    cases op with
    | post t b =>
      rw [postIds_cons_post] at hnd hdisj
      have hndr : (postIds rest).Nodup := (List.nodup_cons.mp hnd).2
      have htnotin : Nat.repr t ∉ postIds rest := (List.nodup_cons.mp hnd).1
      have htfresh : Nat.repr t ∉ storeIds s :=
        hdisj (Nat.repr t) (List.mem_cons_self _ _)
      cases hv : validateItem joi b with
      | error m =>
        have hsnd : (postItems joi t b s).2 = s := by simp [postItems, hv]
        have hcr : createdItems joi (Op.post t b :: rest)
            = createdItems joi rest := by simp [createdItems, hv]
        have hrun : runOps joi s (Op.post t b :: rest)
            = runOps joi s rest := by rw [runOps, hsnd]
        have hsd : succDeletes joi s (Op.post t b :: rest)
            = succDeletes joi s rest := by rw [succDeletes, hsnd]
        rw [hrun, hcr, hsd]
        exact ih s hs hndr (fun i hi => hdisj i (List.mem_cons_of_mem _ hi))
      | ok v =>
        have hsnd : (postItems joi t b s).2
            = s ++ [⟨Nat.repr t, v.name, v.done⟩] := by simp [postItems, hv]
        have hids : storeIds (s ++ [⟨Nat.repr t, v.name, v.done⟩])
            = storeIds s ++ [Nat.repr t] := by simp [storeIds]
        have hs' : (storeIds (s ++ [⟨Nat.repr t, v.name, v.done⟩])).Nodup := by
          rw [hids, List.nodup_append]
          exact ⟨hs, List.nodup_singleton _,
            fun a ha hb => htfresh ((List.mem_singleton.mp hb) ▸ ha)⟩
        have hdisj' : ∀ i ∈ postIds rest,
            i ∉ storeIds (s ++ [⟨Nat.repr t, v.name, v.done⟩]) := by
          intro i hi
          rw [hids]
          simp only [List.mem_append, List.mem_singleton]
          rintro (hmem | rfl)
          · exact hdisj i (List.mem_cons_of_mem _ hi) hmem
          · exact htnotin hi
        have hmain := ih (s ++ [⟨Nat.repr t, v.name, v.done⟩]) hs' hndr hdisj'
        have hcr : createdItems joi (Op.post t b :: rest)
            = ⟨Nat.repr t, v.name, v.done⟩ :: createdItems joi rest := by
          simp [createdItems, hv]
        have hrun : runOps joi s (Op.post t b :: rest)
            = runOps joi (s ++ [⟨Nat.repr t, v.name, v.done⟩]) rest := by
          rw [runOps, hsnd]
        have hsd : succDeletes joi s (Op.post t b :: rest)
            = succDeletes joi (s ++ [⟨Nat.repr t, v.name, v.done⟩]) rest := by
          rw [succDeletes, hsnd]
        have happ : s ++ ⟨Nat.repr t, v.name, v.done⟩ :: createdItems joi rest
            = (s ++ [⟨Nat.repr t, v.name, v.done⟩]) ++ createdItems joi rest := by
          simp
        rw [hrun, hcr, hsd]
        refine ⟨hmain.1, ?_, ?_⟩
        · rw [happ]
          exact hmain.2.1
        · have := hmain.2.2
          simp only [List.length_append, List.length_cons,
            List.length_nil] at this ⊢
          omega
    | del pid =>
      rw [postIds_cons_del] at hnd hdisj
      have hsub : List.Sublist (deleteItem pid s).2 s := List.filter_sublist s
      have hidsSub : List.Sublist (storeIds (deleteItem pid s).2) (storeIds s) :=
        hsub.map Item.id
      have hs' : (storeIds (deleteItem pid s).2).Nodup := hs.sublist hidsSub
      have hdisj' : ∀ i ∈ postIds rest, i ∉ storeIds (deleteItem pid s).2 :=
        fun i hi hmem => hdisj i hi (hidsSub.subset hmem)
      have hmain := ih (deleteItem pid s).2 hs' hnd hdisj'
      have hlen := deleteItem_length pid s hs
      have hrun : runOps joi s (Op.del pid :: rest)
          = runOps joi (deleteItem pid s).2 rest := rfl
      have hcr : createdItems joi (Op.del pid :: rest)
          = createdItems joi rest := rfl
      have hsd : succDeletes joi s (Op.del pid :: rest)
          = (if (deleteItem pid s).1 then 1 else 0)
            + succDeletes joi (deleteItem pid s).2 rest := rfl
      rw [hrun, hcr, hsd]
      refine ⟨hmain.1, ?_, ?_⟩
      · exact hmain.2.1.trans (hsub.append_right _)
      · have := hmain.2.2
        omega

lemma createdIds_sublist (joi : Bool) :
    ∀ ops : List Op,
    List.Sublist (storeIds (createdItems joi ops)) (postIds ops) := by
  intro ops
  induction ops with
  | nil => simp [createdItems, postIds, postTimes, storeIds]
  | cons op rest ih =>
    cases op with
    | post t b =>
      rw [postIds_cons_post]
      cases hv : validateItem joi b with
      | ok v =>
        have hcr : createdItems joi (Op.post t b :: rest)
            = ⟨Nat.repr t, v.name, v.done⟩ :: createdItems joi rest := by
          simp [createdItems, hv]
        rw [hcr]
        have : storeIds (⟨Nat.repr t, v.name, v.done⟩ :: createdItems joi rest)
            = Nat.repr t :: storeIds (createdItems joi rest) := rfl
        rw [this]
        exact ih.cons₂ _
      | error m =>
        have hcr : createdItems joi (Op.post t b :: rest)
            = createdItems joi rest := by simp [createdItems, hv]
        rw [hcr]
        exact ih.cons _
    | del pid =>
      rw [postIds_cons_del]
      exact ih

/-- Claim C1 counterexample: two `POST /items` requests at the same clock
instant (5 ms) both receive the id "5" — the store reaches a state whose
ids are not unique, and the second request is answered 201 with an id
equal to that of the previously created item. -/
theorem same_instant_duplicate_ids :
    ¬ (storeIds (runOps true initialStore
        [Op.post 5 ⟨some (JsVal.vstr "A"), none, false⟩,
         Op.post 5 ⟨some (JsVal.vstr "B"), none, false⟩])).Nodup
    ∧ (postItems true 5 ⟨some (JsVal.vstr "B"), none, false⟩
          (initialStore ++ [⟨"5", "A", false⟩])).1
        = PostRes.created ⟨"5", "B", false⟩ :=
  ⟨by decide, rfl⟩

/-- Claim C1, amended: for every sequence of `POST` and `DELETE`
requests whose `POST`s occur at pairwise distinct clock instants and
whose derived ids avoid the seed ids, every reachable store state has
pairwise distinct ids, and every id ever created is distinct from the
seed ids and from all other created ids — so each 201 response carries
an id unique among all items previously created.  Two appends at the
same clock instant, however, violate this (see the counterexample). -/
theorem ids_unique_of_distinct_instants (joi : Bool) (ops : List Op)
    (htimes : (postTimes ops).Nodup)
    (hseed : ∀ t ∈ postTimes ops, Nat.repr t ∉ storeIds initialStore) :
    (storeIds (runOps joi initialStore ops)).Nodup
    ∧ (storeIds (initialStore ++ createdItems joi ops)).Nodup := by
  have hnd : (postIds ops).Nodup := htimes.map repr_injective
  have hdisj : ∀ i ∈ postIds ops, i ∉ storeIds initialStore := by
    intro i hi
    obtain ⟨t, ht, rfl⟩ := List.mem_map.mp hi
    exact hseed t ht
  have hseednodup : (storeIds initialStore).Nodup := by decide
  have hmain := runOps_invariant joi ops initialStore hseednodup hnd hdisj
  have hcsub := createdIds_sublist joi ops
  refine ⟨hmain.1, ?_⟩
  rw [storeIds_append, List.nodup_append]
  exact ⟨hseednodup, hnd.sublist hcsub,
    fun a ha hb => hdisj a (hcsub.subset hb) ha⟩

/-- Witness for C1's amended theorem: two appends at distinct instants. -/
theorem ids_unique_of_distinct_instants_witness :
    (postTimes [Op.post 5 ⟨some (JsVal.vstr "A"), none, false⟩,
        Op.post 6 ⟨some (JsVal.vstr "B"), none, false⟩]).Nodup
    ∧ (∀ t ∈ postTimes [Op.post 5 ⟨some (JsVal.vstr "A"), none, false⟩,
        Op.post 6 ⟨some (JsVal.vstr "B"), none, false⟩],
        Nat.repr t ∉ storeIds initialStore)
    ∧ (storeIds (runOps true initialStore
        [Op.post 5 ⟨some (JsVal.vstr "A"), none, false⟩,
         Op.post 6 ⟨some (JsVal.vstr "B"), none, false⟩])).Nodup :=
  ⟨by decide, by decide,
   (ids_unique_of_distinct_instants true
      [Op.post 5 ⟨some (JsVal.vstr "A"), none, false⟩,
       Op.post 6 ⟨some (JsVal.vstr "B"), none, false⟩]
      (by decide) (by decide)).1⟩

/-- Claim C6 counterexample: before any request the Store already holds
the two seed items, so after N = 0 successful appends and M = 0
successful deletes `GET /items` returns 2 items, not N − M = 0. -/
theorem get_items_counts_seed :
    getItems (runOps true initialStore []) = initialStore
    ∧ (getItems (runOps true initialStore [])).length = 2
    ∧ createdItems true [] = []
    ∧ succDeletes true initialStore [] = 0 :=
  ⟨rfl, rfl, rfl, rfl⟩

/-- Claim C6, amended: starting from the server's initial state, for
every interleaving of appends and deletes whose appends occur at
pairwise distinct clock instants with ids distinct from the seed ids,
`GET /items` returns exactly 2 + N − M items (N the successful appends,
M the deletes answering removed: true — the two seed items offset the
count), and the surviving items appear in insertion order: the response
is a subsequence of the seed items followed by the created items in
creation order. -/
theorem count_and_order_from_seed (joi : Bool) (ops : List Op)
    (htimes : (postTimes ops).Nodup)
    (hseed : ∀ t ∈ postTimes ops, Nat.repr t ∉ storeIds initialStore) :
    (getItems (runOps joi initialStore ops)).length
        + succDeletes joi initialStore ops
      = 2 + (createdItems joi ops).length
    ∧ List.Sublist (getItems (runOps joi initialStore ops))
        (initialStore ++ createdItems joi ops) := by
  have hnd : (postIds ops).Nodup := htimes.map repr_injective
  have hdisj : ∀ i ∈ postIds ops, i ∉ storeIds initialStore := by
    intro i hi
    obtain ⟨t, ht, rfl⟩ := List.mem_map.mp hi
    exact hseed t ht
  have hmain := runOps_invariant joi ops initialStore (by decide) hnd hdisj
  exact ⟨hmain.2.2, hmain.2.1⟩

/-- Witness for C6's amended theorem: one append at instant 5, a
successful delete of seed id 1 and a failing delete of id 999. -/
theorem count_and_order_from_seed_witness :
    (postTimes [Op.post 5 ⟨some (JsVal.vstr "A"), none, false⟩,
        Op.del "1", Op.del "999"]).Nodup
    ∧ (∀ t ∈ postTimes [Op.post 5 ⟨some (JsVal.vstr "A"), none, false⟩,
        Op.del "1", Op.del "999"],
        Nat.repr t ∉ storeIds initialStore)
    ∧ (getItems (runOps true initialStore
          [Op.post 5 ⟨some (JsVal.vstr "A"), none, false⟩,
           Op.del "1", Op.del "999"])).length
        + succDeletes true initialStore
            [Op.post 5 ⟨some (JsVal.vstr "A"), none, false⟩,
             Op.del "1", Op.del "999"]
      = 2 + (createdItems true
          [Op.post 5 ⟨some (JsVal.vstr "A"), none, false⟩,
           Op.del "1", Op.del "999"]).length :=
  ⟨by decide, by decide,
   (count_and_order_from_seed true
      [Op.post 5 ⟨some (JsVal.vstr "A"), none, false⟩,
       Op.del "1", Op.del "999"]
      (by decide) (by decide)).1⟩

end ItemService
